import Mathlib

/-!
Verification of the ACI (Access Control Instruction) plugin
`ipalib/plugins/aci2.py`.

The plugin operates on a multi-valued string attribute holding all ACIs of
the directory tree root.  Strings are embedded as `List Char` so that all
definitions are executable and the parser/serializer can be reasoned about
by structural induction.

The ACI model itself (class `ACI` of `ipalib/aci.py`: parse, serialize,
structural equality, setters) is not part of the sources; following the
specification it is modelled from the spec's words, see the doc comments
marked `Modelled from the spec:`.  Everything in the operations layer
(`_make_aci`, `_convert_strings_to_acis`, `_find_aci_by_name`,
`_normalize_permissions`, the five command `execute` bodies) is translated
directly from `aci2.py`.
-/

set_option maxRecDepth 40000

deriving instance DecidableEq for Except

namespace Aci2

/-- Strings are embedded as lists of characters. -/
abbrev Str := List Char

/-- Coerce a Lean string literal to the character-list embedding. -/
def str (s : String) : Str := s.data

/-- Python `s.lower()`. -/
def strLower (s : Str) : Str := s.map Char.toLower

/-- Characters stripped by Python `str.strip()` with no argument. -/
def isPySpace (c : Char) : Bool :=
  c = ' ' || c = '\t' || c = '\n' || c = '\r' || c = '\x0b' || c = '\x0c'

/-- Python `s.strip()`: drop leading and trailing whitespace. -/
def pyStrip (s : Str) : Str :=
  ((s.dropWhile isPySpace).reverse.dropWhile isPySpace).reverse

/-- Python `s.split(c)` for a one-character separator: always returns at
least one (possibly empty) piece. -/
def splitChar (c : Char) : Str → List Str
  | [] => [[]]
  | d :: ds =>
    let r := splitChar c ds
    if d = c then [] :: r
    else
      match r with
      | [] => [[d]]
      | h :: t => (d :: h) :: t

/-- Python `c.join(pieces)` for a one-character separator. -/
def joinChar (c : Char) : List Str → Str
  | [] => []
  | [s] => s
  | s :: rest => s ++ c :: joinChar c rest

/-- Does `p` occur at the start of the second argument? -/
def strStarts : Str → Str → Bool
  | [], _ => true
  | _ :: _, [] => false
  | c :: cs, d :: ds => c == d && strStarts cs ds

/-- Python `hay.find(needle) != -1`: substring containment. -/
def strHasSub (needle : Str) : Str → Bool
  | [] => strStarts needle []
  | hay@(_ :: rest) => strStarts needle hay || strHasSub needle rest

/-- Consume an exact literal from the front of the input, or fail. -/
def expectLit : Str → Str → Option Str
  | [], input => some input
  | _ :: _, [] => none
  | c :: cs, d :: ds => if c = d then expectLit cs ds else none

/-- Read characters up to (and consuming) the first occurrence of `c`;
fails when `c` does not occur. -/
def readUntil (c : Char) : Str → Option (Str × Str)
  | [] => none
  | d :: ds =>
    if d = c then some ([], ds)
    else (readUntil c ds).map (fun p => (d :: p.1, p.2))

/-- Split at the first occurrence of `c` (total: missing separator leaves
everything in the first component).  Used by the bind-rule setter. -/
def splitFirst (c : Char) : Str → Str × Str
  | [] => ([], [])
  | d :: ds =>
    if d = c then ([], ds)
    else
      let r := splitFirst c ds
      (d :: r.1, r.2)

/-- Lexicographic comparison of strings by character code, as Python `<=`
on `str` behaves for sorting. -/
def strLe : Str → Str → Bool
  | [], _ => true
  | _ :: _, [] => false
  | c :: cs, d :: ds => if c = d then strLe cs ds else decide (c < d)

/-- Insertion step of `sortStr`. -/
def insertSorted (x : Str) : List Str → List Str
  | [] => [x]
  | y :: ys => if strLe x y then x :: y :: ys else y :: insertSorted x ys

/-- Python `sorted` on a list of strings (insertion sort; only list
equality of sorted lists is ever used, so stability is irrelevant). -/
def sortStr : List Str → List Str
  | [] => []
  | x :: xs => insertSorted x (sortStr xs)

/-! ## The ACI model

`Modelled from the spec:` the class `ACI` of `ipalib/aci.py` is not among
the sources.  The spec describes it as a structured value with a name, an
ordered permission list, a bind rule (keyword/operator/expression, the
expression being the part between the double quotes), and a target rule
made of three optional sub-clauses (`target`, `targetattr`,
`targetfilter`, each carrying an `expression`). -/

/-- Modelled from the spec: the bind rule of an ACI, `<keyword> <operator>
"<expression>"`; the operations layer reads `bindrule[expression]`. -/
structure BindRule where
  keyword : Str
  op : Str
  expression : Str
deriving DecidableEq, Repr

/-- Modelled from the spec: the target rule, a disjoint set of optional
sub-clauses; `targetattr` carries a list of attribute names, the other two
a single expression. -/
structure AciTarget where
  targetattr : Option (List Str)
  target : Option Str
  targetfilter : Option Str
deriving DecidableEq, Repr

/-- Modelled from the spec: one access-control rule. -/
structure ACI where
  name : Str
  permissions : List Str
  bindrule : Option BindRule
  target : AciTarget
deriving DecidableEq, Repr

/-- Modelled from the spec: `ACI(None)`, the blank ACI the builder starts
from; every field is subsequently set by the builder. -/
def ACI.blank : ACI := ⟨[], [], none, ⟨none, none, none⟩⟩

/-- Modelled from the spec: `set_bindrule` parses a textual bind rule
`<keyword> <operator> "<expression>"` and replaces the bind-rule clause
outright. -/
def ACI.set_bindrule (a : ACI) (s : Str) : ACI :=
  let kw := splitFirst ' ' s
  let op := splitFirst ' ' kw.2
  let q1 := splitFirst '"' op.2
  let ex := splitFirst '"' q1.2
  { a with bindrule := some ⟨kw.1, op.1, ex.1⟩ }

/-- Modelled from the spec: `set_target_attr` replaces the attribute
allow-list clause outright. -/
def ACI.set_target_attr (a : ACI) (l : List Str) : ACI :=
  { a with target := { a.target with targetattr := some l } }

/-- Modelled from the spec: `set_target` replaces the target clause
outright. -/
def ACI.set_target (a : ACI) (t : Str) : ACI :=
  { a with target := { a.target with target := some t } }

/-- Modelled from the spec: `set_target_filter` replaces the target-filter
clause outright. -/
def ACI.set_target_filter (a : ACI) (f : Str) : ACI :=
  { a with target := { a.target with targetfilter := some f } }

/-- Modelled from the spec: `structural_equals` / `isequal` "compares
name, permission set (order-insensitive), bind rule, and target rule
fields for semantic equivalence — not raw string equality"; the name is
"case-insensitive for lookup/equality purposes". -/
def isequal (a b : ACI) : Bool :=
  decide (strLower a.name = strLower b.name) &&
  a.permissions.all (fun p => b.permissions.contains p) &&
  b.permissions.all (fun p => a.permissions.contains p) &&
  decide (a.bindrule = b.bindrule) &&
  decide (a.target = b.target)

/-! ## Wire format

`Modelled from the spec:` the native ACI text syntax is an external
directory-server wire format (spec section 6); its exact grammar is not in
the sources.  We fix one concrete encoding with the clause structure the
spec describes — optional `targetattr` / `target` / `targetfilter`
clauses followed by the mandatory name / permissions / bind-rule clause —
and an inverse parser.  `SyntaxError` of the source's parser corresponds
to `parseAci` returning `none`. -/

def litTargetattr : Str := str "(targetattr=\""

def litTarget : Str := str "(target=\""

def litTargetfilter : Str := str "(targetfilter=\""

def litVersion : Str := str "(version 3.0;acl \""

/-- One optional quoted clause of the serialized form. -/
def optClause (lit : Str) : Option Str → Str
  | none => []
  | some content => lit ++ content ++ '"' :: ')' :: []

/-- Serialized form of the bind rule (degenerate empty fields when the
bind rule was never set; such ACIs are not well-formed). -/
def bindrulePart : Option BindRule → Str
  | none => ' ' :: ' ' :: '"' :: '"' :: ';' :: ')' :: []
  | some br =>
    br.keyword ++ ' ' :: br.op ++ ' ' :: '"' :: br.expression ++ '"' :: ';' :: ')' :: []

/-- Modelled from the spec: `serialize` / `str(aci)`, the canonical
textual encoding of an ACI. -/
def serializeAci (a : ACI) : Str :=
  optClause litTargetattr (a.target.targetattr.map (joinChar '|')) ++
  optClause litTarget a.target.target ++
  optClause litTargetfilter a.target.targetfilter ++
  litVersion ++ a.name ++ '"' :: str ";allow (" ++
  joinChar ',' a.permissions ++ ')' :: ' ' :: bindrulePart a.bindrule

/-- Parse one optional quoted clause: absent iff the literal does not
match; hard failure when the literal matches but the clause is
malformed. -/
def parseOptClause (lit : Str) (input : Str) : Option (Option Str × Str) :=
  match expectLit lit input with
  | none => some (none, input)
  | some rest =>
    match readUntil '"' rest with
    | none => none
    | some p =>
      match expectLit (')' :: []) p.2 with
      | none => none
      | some r2 => some (some p.1, r2)

/-- Parse the mandatory final clause: name, permissions and bind rule. -/
def parseBody (s : Str) : Option (Str × List Str × BindRule) :=
  match expectLit litVersion s with
  | none => none
  | some s4 =>
  match readUntil '"' s4 with
  | none => none
  | some np =>
  match expectLit (str ";allow (") np.2 with
  | none => none
  | some s5 =>
  match readUntil ')' s5 with
  | none => none
  | some pp =>
  match expectLit (' ' :: []) pp.2 with
  | none => none
  | some s6 =>
  match readUntil ' ' s6 with
  | none => none
  | some kp =>
  match readUntil ' ' kp.2 with
  | none => none
  | some opp =>
  match expectLit ('"' :: []) opp.2 with
  | none => none
  | some s7 =>
  match readUntil '"' s7 with
  | none => none
  | some ep =>
  match expectLit (';' :: ')' :: []) ep.2 with
  | none => none
  | some s8 =>
  if s8 = [] then some (np.1, splitChar ',' pp.1, ⟨kp.1, opp.1, ep.1⟩)
  else none

/-- Modelled from the spec: `parse` / `ACI(text)`; returns `none` where
the source raises `SyntaxError`. -/
def parseAci (s : Str) : Option ACI :=
  match parseOptClause litTargetattr s with
  | none => none
  | some p1 =>
  match parseOptClause litTarget p1.2 with
  | none => none
  | some p2 =>
  match parseOptClause litTargetfilter p2.2 with
  | none => none
  | some p3 =>
  match parseBody p3.2 with
  | none => none
  | some core =>
    some ⟨core.1, core.2.1, some core.2.2,
          ⟨p1.1.map (splitChar '|'), p2.1, p3.1⟩⟩

/-- Well-formedness of a constructed ACI: the fields contain none of the
delimiter characters of the wire format and the mandatory parts are
present ("valid constructed ACIs" of the spec's round-trip property). -/
def ACI.wf (a : ACI) : Prop :=
  (∃ br, a.bindrule = some br ∧ ' ' ∉ br.keyword ∧ ' ' ∉ br.op ∧
    '"' ∉ br.expression) ∧
  '"' ∉ a.name ∧
  a.permissions ≠ [] ∧
  (∀ p ∈ a.permissions, ',' ∉ p ∧ ')' ∉ p) ∧
  (∀ l, a.target.targetattr = some l → l ≠ [] ∧ ∀ t ∈ l, '|' ∉ t ∧ '"' ∉ t) ∧
  (∀ t, a.target.target = some t → '"' ∉ t) ∧
  (∀ f, a.target.targetfilter = some f → '"' ∉ f)

instance (a : ACI) : Decidable a.wf := by
  unfold ACI.wf
  infer_instance

/-! ## Collaborators

`Modelled from the spec:` the group / task-group lookup service
(`taskgroup2_show`, `taskgroup2_create`, `group2_show`) is an external
collaborator: `show(name)` fails with NotFound when absent,
`create(name, description)` registers a new task-group and returns its
distinguished name.  The directory entry store is the multi-valued `aci`
attribute of the base entry, embedded as `List Str`. -/

/-- One registered task-group of the lookup collaborator. -/
structure TaskGroup where
  name : Str
  dn : Str
  description : Str
deriving DecidableEq, Repr

/-- The lookup collaborator's state: registered task-groups and groups
(name, distinguished name). -/
structure Env where
  taskgroups : List TaskGroup
  groups : List (Str × Str)
deriving DecidableEq, Repr

/-- Deterministic distinguished name of a task-group created on demand. -/
def taskgroupDn (n : Str) : Str :=
  str "cn=" ++ n ++ str ",cn=taskgroups,cn=accounts,dc=example,dc=com"

/-- Modelled from the spec: `taskgroup2_show`, name to DN, absent means
NotFound. -/
def taskgroup2_show (env : Env) (n : Str) : Option Str :=
  (env.taskgroups.find? (fun t => decide (t.name = n))).map TaskGroup.dn

/-- Modelled from the spec: `taskgroup2_create name (description := d)`
registers a fresh task-group and returns its DN. -/
def taskgroup2_create (env : Env) (n d : Str) : Str × Env :=
  (taskgroupDn n, { env with taskgroups := env.taskgroups ++ [⟨n, taskgroupDn n, d⟩] })

/-- Modelled from the spec: `group2_show`, name to DN, absent means
NotFound. -/
def group2_show (env : Env) (n : Str) : Option Str :=
  (env.groups.find? (fun t => decide (t.1 = n))).map Prod.snd

/-- The errors the operations layer can surface.  `keyError` and
`assertionError` are ordinary Python exceptions raised by dictionary
access / `assert`. -/
inductive Err where
  | notFound : Str → Err
  | duplicateEntry : Err
  | syntaxError : Err
  | keyError : Str → Err
  | assertionError : Err
deriving DecidableEq, Repr

/-- The keyword-argument dictionary of a request, one optional slot per
parameter of the `aci2` object. -/
structure AciKw where
  aciname : Option Str := none
  taskgroup : Option Str := none
  permissions : Option (List Str) := none
  attrs : Option (List Str) := none
  type : Option Str := none
  memberof : Option Str := none
  filter : Option Str := none
  subtree : Option Str := none
  targetgroup : Option Str := none
deriving DecidableEq, Repr

/-- `api.env.container_user` etc. joined with the base DN: the `_type_map`
dictionary of `aci2.py`, keyed by the `type` enum value. -/
def typeMap (t : Str) : Option Str :=
  if t = str "user" then
    some (str "ldap:///uid=*,cn=users,cn=accounts,dc=example,dc=com")
  else if t = str "group" then
    some (str "ldap:///cn=*,cn=groups,cn=accounts,dc=example,dc=com")
  else if t = str "host" then
    some (str "ldap:///cn=*,cn=computers,cn=accounts,dc=example,dc=com")
  else none

/-- The fixed permission vocabulary `_valid_permissions_values`. -/
def validPermissionsValues : List Str :=
  [str "read", str "write", str "add", str "delete", str "selfwrite", str "all"]

/-- Accumulating loop of `_normalize_permissions`: strip and lowercase
each piece, keep it when it is in the vocabulary and not yet kept. -/
def normPermsLoop (acc : List Str) : List Str → List Str
  | [] => acc
  | p :: ps =>
    let q := strLower (pyStrip p)
    if validPermissionsValues.contains q && !(acc.contains q) then
      normPermsLoop (acc ++ [q]) ps
    else
      normPermsLoop acc ps

/-- `_normalize_permissions`: split on commas, strip/lowercase, keep only
vocabulary tokens, deduplicate preserving first occurrence, re-join. -/
def normalizePermissions (s : Str) : Str :=
  joinChar ',' (normPermsLoop [] (splitChar ',' s))

/-- `_convert_strings_to_acis`: decode every stored string, silently
skipping the ones whose parse raises `SyntaxError`. -/
def convertStringsToAcis : List Str → List ACI
  | [] => []
  | s :: rest =>
    match parseAci s with
    | some a => a :: convertStringsToAcis rest
    | none => convertStringsToAcis rest

/-- `_find_aci_by_name`: first decoded ACI whose name matches
case-insensitively, else NotFound. -/
def findAciByName : List ACI → Str → Except Err ACI
  | [], n => .error (.notFound n)
  | a :: rest, n =>
    if strLower a.name = strLower n then .ok a else findAciByName rest n

/-- `_make_aci(current, aciname, kw)`: build the candidate ACI, resolving
the grantee task-group (creating it on demand) and the `memberof` /
`targetgroup` references (NotFound propagates).  The environment is
returned in every branch because a task-group created before a later
failure stays created. -/
def make_aci (env : Env) (current : Option Str) (aciname : Str) (kw : AciKw) :
    Env × Except Err ACI :=
  match kw.taskgroup with
  | none => (env, .error (.keyError (str "taskgroup")))
  | some tg =>
    let dnEnv : Str × Env :=
      match taskgroup2_show env tg with
      | some dn => (dn, env)
      | none => taskgroup2_create env tg aciname
    let dn := dnEnv.1
    let env := dnEnv.2
    let a0 : Except Err ACI :=
      match current with
      | none => .ok ACI.blank
      | some s =>
        match parseAci s with
        | some a => .ok a
        | none => .error .syntaxError
    match a0 with
    | .error e => (env, .error e)
    | .ok a0 =>
      match kw.permissions with
      | none => (env, .error (.keyError (str "permissions")))
      | some perms =>
        let a := { a0 with name := aciname, permissions := perms }
        let a := a.set_bindrule (str "groupdn = \"ldap:///" ++ dn ++ '"' :: [])
        let a := match kw.attrs with
          | some l => a.set_target_attr l
          | none => a
        let amf : Except Err ACI :=
          match kw.memberof with
          | some g =>
            match group2_show env g with
            | some gdn => .ok (a.set_target_filter (str "memberOf=" ++ gdn))
            | none => .error (.notFound g)
          | none => .ok a
        match amf with
        | .error e => (env, .error e)
        | .ok a =>
          let a := match kw.filter with
            | some f => a.set_target_filter f
            | none => a
          let aty : Except Err ACI :=
            match kw.type with
            | some t =>
              match typeMap t with
              | some target => .ok (a.set_target target)
              | none => .error (.keyError t)
            | none => .ok a
          match aty with
          | .error e => (env, .error e)
          | .ok a =>
            let atg : Except Err ACI :=
              match kw.targetgroup with
              | some g =>
                match group2_show env g with
                | some gdn => .ok (a.set_target (str "ldap:///" ++ gdn))
                | none => .error (.notFound g)
              | none => .ok a
            match atg with
            | .error e => (env, .error e)
            | .ok a =>
              let a := match kw.subtree with
                | some t =>
                  if strStarts (str "ldap:///") t then a.set_target t
                  else a.set_target (str "ldap:///" ++ t)
                | none => a
              (env, .ok a)

/-! ## The directory entry

`get_entry(basedn, [aci])` returns a Python dictionary holding exactly the
requested attribute: only the key `aci` is present. -/

/-- The attribute dictionary returned by `ldap.get_entry(basedn, [aci])`. -/
def entryAttrs (store : List Str) : List (Str × List Str) :=
  [(str "aci", store)]

/-- Python `d[k]`: raises `KeyError` when the key is absent. -/
def dictGet (d : List (Str × List Str)) (k : Str) : Except Err (List Str) :=
  match d.find? (fun p => decide (p.1 = k)) with
  | some p => .ok p.2
  | none => .error (.keyError k)

/-- Python `d.get(k, dflt)`. -/
def dictGetD (d : List (Str × List Str)) (k : Str) (dflt : List Str) : List Str :=
  match d.find? (fun p => decide (p.1 = k)) with
  | some p => p.2
  | none => dflt

/-- Python `d[k] = v`. -/
def dictSet (d : List (Str × List Str)) (k : Str) (v : List Str) :
    List (Str × List Str) :=
  match d with
  | [] => [(k, v)]
  | p :: rest => if p.1 = k then (k, v) :: rest else p :: dictSet rest k v

/-- Modelled from the spec: structural equality of an ACI against one raw
stored entry — the spec's delete "removes the first raw entry that is
structurally equal to" the located ACI, so a raw entry is structurally
equal when it decodes to a structurally equal ACI. -/
def isequalStr (a : ACI) (s : Str) : Bool :=
  match parseAci s with
  | some b => isequal a b
  | none => false

/-- The delete loop: drop the first raw entry structurally equal to the
located ACI (`for a in acistrs: if aci.isequal(a): acistrs.remove(a);
break`). -/
def removeFirstEqual (aci : ACI) : List Str → List Str
  | [] => []
  | s :: rest => if isequalStr aci s then rest else s :: removeFirstEqual aci rest

/-! ## The five commands

Each command reads the full attribute, works in memory, and (for the
mutators) writes the whole attribute back.  The store and collaborator
environment are returned in every branch: a write that happened before a
later failure stays applied. -/

/-- `aci2_create.execute`.  `assert aciname not in kw` is the first
statement of the body.  Note the source appends the serialized candidate
to `entry_attrs[acis]` although the entry holds only the key `aci`:
Python raises `KeyError` there, so the success path is unreachable. -/
def aci2_create (env : Env) (store : List Str) (aciname : Str) (kw : AciKw) :
    Env × List Str × Except Err Str :=
  if kw.aciname.isSome then (env, store, .error .assertionError) else
  match make_aci env none aciname kw with
  | (env2, .error e) => (env2, store, .error e)
  | (env2, .ok newaci) =>
    let entry := entryAttrs store
    let acis := convertStringsToAcis (dictGetD entry (str "aci") [])
    if acis.any (fun a => isequal a newaci) then
      (env2, store, .error .duplicateEntry)
    else
      let newaciStr := serializeAci newaci
      match dictGet entry (str "acis") with
      | .error e => (env2, store, .error e)
      | .ok lst =>
        let entry2 := dictSet entry (str "acis") (lst ++ [newaciStr])
        (env2, dictGetD entry2 (str "aci") [], .ok newaciStr)

/-- `aci2_delete.execute`: locate by case-insensitive name, remove the
first structurally equal raw entry, write the reduced value back. -/
def aci2_delete (store : List Str) (aciname : Str) : List Str × Except Err Bool :=
  let acistrs := dictGetD (entryAttrs store) (str "aci") []
  let acis := convertStringsToAcis acistrs
  match findAciByName acis aciname with
  | .error e => (store, .error e)
  | .ok aci => (removeFirstEqual aci acistrs, .ok true)

/-- The `setdefault` chain of `aci2_mod.execute`: default each
unspecified field from the located ACI (the defaults of `setdefault` are
evaluated eagerly, so the bind rule and `targetattr` are read — and can
raise `KeyError` — even when the caller supplied those fields). -/
def modMergeKw (aci : ACI) (kw : AciKw) : Except Err AciKw :=
  let kw1 := if kw.aciname.isSome then kw else { kw with aciname := some aci.name }
  match aci.bindrule with
  | none => .error (.keyError (str "expression"))
  | some br =>
    let kw2 := if kw1.taskgroup.isSome then kw1 else
      { kw1 with taskgroup := some br.expression }
    let kw3 := if kw2.permissions.isSome then kw2 else
      { kw2 with permissions := some aci.permissions }
    match aci.target.targetattr with
    | none => .error (.keyError (str "targetattr"))
    | some tattr =>
      let kw4 := if kw3.attrs.isSome then kw3 else { kw3 with attrs := some tattr }
      let kw5 : Except Err AciKw :=
        if kw4.type.isNone && kw4.targetgroup.isNone && kw4.subtree.isNone then
          match aci.target.target with
          | some t => .ok { kw4 with subtree := some t }
          | none => .error (.keyError (str "target"))
        else .ok kw4
      match kw5 with
      | .error e => .error e
      | .ok kw5 =>
        if kw5.memberof.isNone && kw5.filter.isNone then
          match aci.target.targetfilter with
          | some f => .ok { kw5 with filter := some f }
          | none => .error (.keyError (str "targetfilter"))
        else .ok kw5

/-- `aci2_mod.execute`: locate the ACI by case-insensitive name, merge
the unspecified keywords from it, then delete by name and re-create with
the merged keywords. -/
def aci2_mod (env : Env) (store : List Str) (aciname : Str) (kw : AciKw) :
    Env × List Str × Except Err Str :=
  let acis := convertStringsToAcis (dictGetD (entryAttrs store) (str "aci") [])
  match findAciByName acis aciname with
  | .error e => (env, store, .error e)
  | .ok aci =>
    match modMergeKw aci kw with
    | .error e => (env, store, .error e)
    | .ok kw6 =>
      match aci2_delete store aciname with
      | (store2, .error e) => (env, store2, .error e)
      | (store2, .ok _) => aci2_create env store2 aciname kw6

/-- An ACI of the working lists of `aci2_find.execute`.  Python compares
the decoded objects by identity (`a not in results`, `results.remove(a)`
with no `__eq__` on `ACI`), so each decoded object is tagged with its
position in the decoded list. -/
abbrev IAci := Nat × ACI

/-- Remove the first occurrence of `x` (Python `list.remove`, which never
misses here because the loops only remove elements of a snapshot of the
result list). -/
def removeFirstP (x : IAci) : List IAci → List IAci
  | [] => []
  | y :: rest => if y = x then rest else y :: removeFirstP x rest

/-- One filter pass of `aci2_find.execute`: iterate over the snapshot
`acis`, removing every non-matching element from `results`.  (Python's
reassignment of the loop variable list inside a pass does not affect the
iteration, which walks the snapshot taken at loop entry.) -/
def filterPass (keep : IAci → Bool) (results : List IAci) : List IAci → List IAci
  | [] => results
  | a :: rest => filterPass keep (if keep a then results else removeFirstP a results) rest

/-- A filter pass whose test can raise (dictionary access on the decoded
ACI). -/
def filterPassE (keep : IAci → Except Err Bool) (results : List IAci) :
    List IAci → Except Err (List IAci)
  | [] => .ok results
  | a :: rest =>
    match keep a with
    | .error e => .error e
    | .ok true => filterPassE keep results rest
    | .ok false => filterPassE keep (removeFirstP a results) rest

/-- The free-text pass of `aci2_find.execute`: append every ACI whose
lowercased name contains the lowercased term and which is not yet in the
result list. -/
def termLoop (term : Str) (results : List IAci) : List IAci → List IAci
  | [] => results
  | a :: rest =>
    if strHasSub term (strLower a.2.name) && !(results.contains a) then
      termLoop term (results ++ [a]) rest
    else
      termLoop term results rest

/-- `aci2_find.execute(term, **kw)`: decode, then narrow through the
pipeline of optional passes (term, aciname, attrs, taskgroup,
permissions, memberof) and serialize the survivors.  An unresolvable
`taskgroup` / `memberof` name makes that pass a no-op (`except NotFound:
pass`).

The source keeps two variables, the snapshot `acis` iterated over and the
result list `results` removed from, and re-establishes `acis = results`
after every pass (also after the initial term block, in both of its
branches); each pass below therefore takes the single current list as
both the snapshot and the result list, exactly as the source's pair of
variables holds them at that point. -/
def aci2_find (env : Env) (store : List Str) (term : Str) (kw : AciKw) :
    Except Err (List Str) :=
  let decoded := convertStringsToAcis (dictGetD (entryAttrs store) (str "aci") [])
  let acis0 := decoded.enum
  let results1 := if term.isEmpty then acis0 else termLoop (strLower term) [] acis0
  let results2 := match kw.aciname with
    | some n => filterPass (fun ia => decide (ia.2.name = n)) results1 results1
    | none => results1
  let results3E : Except Err (List IAci) := match kw.attrs with
    | some attrs =>
      filterPassE (fun ia =>
        match ia.2.target.targetattr with
        | none => .error (.keyError (str "targetattr"))
        | some l =>
          .ok (decide (sortStr (l.map strLower) = sortStr (attrs.map strLower))))
        results2 results2
    | none => .ok results2
  match results3E with
  | .error e => .error e
  | .ok results3 =>
    let results4E : Except Err (List IAci) := match kw.taskgroup with
      | some tg =>
        match taskgroup2_show env tg with
        | none => .ok results3
        | some dn =>
          filterPassE (fun ia =>
            match ia.2.bindrule with
            | none => .error (.keyError (str "expression"))
            | some br => .ok (decide (br.expression = str "ldap:///" ++ dn)))
            results3 results3
      | none => .ok results3
    match results4E with
    | .error e => .error e
    | .ok results4 =>
      let results5 := match kw.permissions with
        | some perms =>
          filterPass (fun ia => decide (sortStr ia.2.permissions = sortStr perms))
            results4 results4
        | none => results4
      let results6 := match kw.memberof with
        | some g =>
          match group2_show env g with
          | none => results5
          | some dn =>
            filterPass (fun ia =>
              match ia.2.target.targetfilter with
              | some f => decide (f = '(' :: str "memberOf=" ++ dn ++ ')' :: [])
              | none => false) results5 results5
        | none => results5
      .ok (results6.map (fun ia => serializeAci ia.2))

/-- `aci2_show.execute`: serialize the ACI located by case-insensitive
name, or NotFound. -/
def aci2_show (store : List Str) (aciname : Str) : Except Err Str :=
  let acis := convertStringsToAcis (dictGetD (entryAttrs store) (str "aci") [])
  match findAciByName acis aciname with
  | .error e => .error e
  | .ok a => .ok (serializeAci a)

/-! ## Sample data used by concrete witnesses -/

/-- A sample bind rule granting to task-group `tg1`. -/
def sampleBr : BindRule :=
  ⟨str "groupdn", str "=",
   str "ldap:///cn=tg1,cn=taskgroups,cn=accounts,dc=example,dc=com"⟩

/-- A sample well-formed ACI with every optional clause populated. -/
def sampleAci : ACI :=
  ⟨str "test", [str "read", str "write"], some sampleBr,
   ⟨some [str "cn", str "sn"], some (str "ldap:///dc=example,dc=com"),
    some (str "memberOf=cn=g1")⟩⟩

/-- A second sample ACI, distinct from `sampleAci`, with no optional
target clauses. -/
def sampleAci2 : ACI :=
  ⟨str "other", [str "all"], some sampleBr, ⟨none, none, none⟩⟩

/-- A third sample ACI whose permissions strictly extend `sampleAci`'s. -/
def sampleAci3 : ACI :=
  ⟨str "t3", [str "read", str "write", str "add"], some sampleBr,
   ⟨none, none, none⟩⟩

/-- A sample lookup environment: task-group `tg1` and group `g1` exist. -/
def sampleEnv : Env :=
  ⟨[⟨str "tg1", taskgroupDn (str "tg1"), str "d"⟩],
   [(str "g1", str "cn=g1,cn=groups,cn=accounts,dc=example,dc=com")]⟩

/-! ## String lemmas -/

theorem expectLit_self (l rest : Str) : expectLit l (l ++ rest) = some rest := by
  induction l with
  | nil => rfl
  | cons c cs ih => simp [expectLit, ih]

theorem expectLit_ne {c d : Char} (a b e : Str) (h : c ≠ d) :
    expectLit (a ++ c :: b) (a ++ d :: e) = none := by
  induction a with
  | nil => simp [expectLit, h]
  | cons x xs ih => simp [expectLit, ih]

theorem readUntil_append {c : Char} {s : Str} (rest : Str) (h : c ∉ s) :
    readUntil c (s ++ c :: rest) = some (s, rest) := by
  induction s with
  | nil => simp [readUntil]
  | cons d ds ih =>
    have hdc : d ≠ c := by
      intro e
      exact h (e ▸ List.mem_cons_self d ds)
    have hs : c ∉ ds := fun m => h (List.mem_cons_of_mem d m)
    simp [readUntil, hdc, ih hs]

theorem splitFirst_append {c : Char} {s : Str} (rest : Str) (h : c ∉ s) :
    splitFirst c (s ++ c :: rest) = (s, rest) := by
  induction s with
  | nil => simp [splitFirst]
  | cons d ds ih =>
    have hdc : d ≠ c := by
      intro e
      exact h (e ▸ List.mem_cons_self d ds)
    have hs : c ∉ ds := fun m => h (List.mem_cons_of_mem d m)
    simp [splitFirst, hdc, ih hs]

theorem splitChar_of_not_mem {c : Char} {s : Str} (h : c ∉ s) :
    splitChar c s = [s] := by
  induction s with
  | nil => rfl
  | cons d ds ih =>
    have hdc : d ≠ c := by
      intro e
      exact h (e ▸ List.mem_cons_self d ds)
    have hs : c ∉ ds := fun m => h (List.mem_cons_of_mem d m)
    simp [splitChar, hdc, ih hs]

theorem splitChar_append {c : Char} {s : Str} (rest : Str) (h : c ∉ s) :
    splitChar c (s ++ c :: rest) = s :: splitChar c rest := by
  induction s with
  | nil => simp [splitChar]
  | cons d ds ih =>
    have hdc : d ≠ c := by
      intro e
      exact h (e ▸ List.mem_cons_self d ds)
    have hs : c ∉ ds := fun m => h (List.mem_cons_of_mem d m)
    simp only [List.cons_append, splitChar, if_neg hdc, List.append_eq]
    rw [ih hs]

theorem splitChar_joinChar {c : Char} {l : List Str} (hne : l ≠ [])
    (h : ∀ p ∈ l, c ∉ p) : splitChar c (joinChar c l) = l := by
  induction l with
  | nil => exact absurd rfl hne
  | cons s rest ih =>
    cases rest with
    | nil =>
      simpa [joinChar] using splitChar_of_not_mem (h s (List.mem_cons_self s []))
    | cons t ts =>
      have hs : c ∉ s := h s (List.mem_cons_self s _)
      have hrest : ∀ p ∈ t :: ts, c ∉ p := fun p m => h p (List.mem_cons_of_mem s m)
      calc splitChar c (joinChar c (s :: t :: ts))
          = splitChar c (s ++ c :: joinChar c (t :: ts)) := rfl
        _ = s :: splitChar c (joinChar c (t :: ts)) := splitChar_append _ hs
        _ = s :: t :: ts := by rw [ih (List.cons_ne_nil t ts) hrest]

theorem not_mem_joinChar {x c : Char} {l : List Str} (hxc : x ≠ c)
    (h : ∀ p ∈ l, x ∉ p) : x ∉ joinChar c l := by
  induction l with
  | nil => simp [joinChar]
  | cons s rest ih =>
    cases rest with
    | nil => simpa [joinChar] using h s (List.mem_cons_self s [])
    | cons t ts =>
      have hs : x ∉ s := h s (List.mem_cons_self s _)
      have hrest : ∀ p ∈ t :: ts, x ∉ p := fun p m => h p (List.mem_cons_of_mem s m)
      intro hmem
      rcases List.mem_append.mp hmem with h1 | h2
      · exact hs h1
      · rcases List.mem_cons.mp h2 with h3 | h4
        · exact hxc h3
        · exact ih hrest h4

theorem expectLit_single (c : Char) (rest : Str) :
    expectLit (c :: []) (c :: rest) = some rest := by
  simp [expectLit]

theorem expectLit_pair (c d : Char) (rest : Str) :
    expectLit (c :: d :: []) (c :: d :: rest) = some rest := by
  simp [expectLit]

/-! ## Round trip of the wire format -/

theorem expectLit_ta_t (r : Str) : expectLit litTargetattr (litTarget ++ r) = none := by
  have h : expectLit (str "(target" ++ 'a' :: str "ttr=\"")
      (str "(target" ++ '=' :: ('"' :: r)) = none := expectLit_ne _ _ _ (by decide)
  simpa [litTargetattr, litTarget, str] using h

theorem expectLit_ta_tf (r : Str) :
    expectLit litTargetattr (litTargetfilter ++ r) = none := by
  have h : expectLit (str "(target" ++ 'a' :: str "ttr=\"")
      (str "(target" ++ 'f' :: (str "ilter=\"" ++ r)) = none := expectLit_ne _ _ _ (by decide)
  simpa [litTargetattr, litTargetfilter, str] using h

theorem expectLit_ta_v (r : Str) : expectLit litTargetattr (litVersion ++ r) = none := by
  have h : expectLit (str "(" ++ 't' :: str "argetattr=\"")
      (str "(" ++ 'v' :: (str "ersion 3.0;acl \"" ++ r)) = none := expectLit_ne _ _ _ (by decide)
  simpa [litTargetattr, litVersion, str] using h

theorem expectLit_t_tf (r : Str) : expectLit litTarget (litTargetfilter ++ r) = none := by
  have h : expectLit (str "(target" ++ '=' :: str "\"")
      (str "(target" ++ 'f' :: (str "ilter=\"" ++ r)) = none := expectLit_ne _ _ _ (by decide)
  simpa [litTarget, litTargetfilter, str] using h

theorem expectLit_t_v (r : Str) : expectLit litTarget (litVersion ++ r) = none := by
  have h : expectLit (str "(" ++ 't' :: str "arget=\"")
      (str "(" ++ 'v' :: (str "ersion 3.0;acl \"" ++ r)) = none := expectLit_ne _ _ _ (by decide)
  simpa [litTarget, litVersion, str] using h

theorem expectLit_tf_v (r : Str) : expectLit litTargetfilter (litVersion ++ r) = none := by
  have h : expectLit (str "(" ++ 't' :: str "argetfilter=\"")
      (str "(" ++ 'v' :: (str "ersion 3.0;acl \"" ++ r)) = none := expectLit_ne _ _ _ (by decide)
  simpa [litTargetfilter, litVersion, str] using h

theorem parseOptClause_match {content : Str} (lit rest : Str) (h : '"' ∉ content) :
    parseOptClause lit (lit ++ (content ++ '"' :: ')' :: rest)) =
      some (some content, rest) := by
  simp only [parseOptClause, expectLit_self, readUntil_append _ h, expectLit_single]

theorem parseOptClause_nomatch {lit input : Str} (h : expectLit lit input = none) :
    parseOptClause lit input = some (none, input) := by
  simp only [parseOptClause, h]

theorem parseOptClause_skip_ta_t (r : Str) :
    parseOptClause litTargetattr (litTarget ++ r) = some (none, litTarget ++ r) :=
  parseOptClause_nomatch (expectLit_ta_t r)

theorem parseOptClause_skip_ta_tf (r : Str) :
    parseOptClause litTargetattr (litTargetfilter ++ r) =
      some (none, litTargetfilter ++ r) :=
  parseOptClause_nomatch (expectLit_ta_tf r)

theorem parseOptClause_skip_ta_v (r : Str) :
    parseOptClause litTargetattr (litVersion ++ r) = some (none, litVersion ++ r) :=
  parseOptClause_nomatch (expectLit_ta_v r)

theorem parseOptClause_skip_t_tf (r : Str) :
    parseOptClause litTarget (litTargetfilter ++ r) =
      some (none, litTargetfilter ++ r) :=
  parseOptClause_nomatch (expectLit_t_tf r)

theorem parseOptClause_skip_t_v (r : Str) :
    parseOptClause litTarget (litVersion ++ r) = some (none, litVersion ++ r) :=
  parseOptClause_nomatch (expectLit_t_v r)

theorem parseOptClause_skip_tf_v (r : Str) :
    parseOptClause litTargetfilter (litVersion ++ r) = some (none, litVersion ++ r) :=
  parseOptClause_nomatch (expectLit_tf_v r)

theorem parseBody_correct {nm pj kw op ex : Str}
    (hnm : '"' ∉ nm) (hpj : ')' ∉ pj) (hkw : ' ' ∉ kw) (hop : ' ' ∉ op)
    (hex : '"' ∉ ex) :
    parseBody (litVersion ++ (nm ++ '"' :: (str ";allow (" ++
        (pj ++ ')' :: ' ' :: (kw ++ ' ' :: (op ++ ' ' :: '"' ::
          (ex ++ '"' :: ';' :: ')' :: []))))))) =
      some (nm, splitChar ',' pj, ⟨kw, op, ex⟩) := by
  simp only [parseBody, expectLit_self, readUntil_append _ hnm, readUntil_append _ hpj,
    readUntil_append _ hkw, readUntil_append _ hop, readUntil_append _ hex,
    expectLit_single, expectLit_pair, if_pos]

theorem parseAci_serializeAci {a : ACI} (h : a.wf) :
    parseAci (serializeAci a) = some a := by
  obtain ⟨nm, perms, obr, ⟨ota, ot, otf⟩⟩ := a
  obtain ⟨⟨br, hbr, hk, ho, he⟩, hn, hpne, hperm, hta, ht, htf⟩ := h
  obtain rfl : obr = some br := hbr
  have hpj : ')' ∉ joinChar ',' perms :=
    not_mem_joinChar (by decide) (fun p m => (hperm p m).2)
  have hsplit : splitChar ',' (joinChar ',' perms) = perms :=
    splitChar_joinChar hpne (fun p m => (hperm p m).1)
  rcases ota with _ | l
  · rcases ot with _ | t <;> rcases otf with _ | f
    · simp only [serializeAci, optClause, Option.map_none', bindrulePart,
        List.append_assoc, List.cons_append, List.nil_append, parseAci,
        parseOptClause_skip_ta_v, parseOptClause_skip_t_v, parseOptClause_skip_tf_v,
        parseBody_correct hn hpj hk ho he, hsplit]
    · have hfq : '"' ∉ f := htf f rfl
      simp only [serializeAci, optClause, Option.map_none', Option.map_some',
        bindrulePart, List.append_assoc, List.cons_append, List.nil_append, parseAci,
        parseOptClause_skip_ta_tf, parseOptClause_skip_t_tf,
        parseOptClause_match _ _ hfq,
        parseBody_correct hn hpj hk ho he, hsplit]
    · have htq : '"' ∉ t := ht t rfl
      simp only [serializeAci, optClause, Option.map_none', Option.map_some',
        bindrulePart, List.append_assoc, List.cons_append, List.nil_append, parseAci,
        parseOptClause_skip_ta_t, parseOptClause_match _ _ htq,
        parseOptClause_skip_tf_v,
        parseBody_correct hn hpj hk ho he, hsplit]
    · have htq : '"' ∉ t := ht t rfl
      have hfq : '"' ∉ f := htf f rfl
      simp only [serializeAci, optClause, Option.map_none', Option.map_some',
        bindrulePart, List.append_assoc, List.cons_append, List.nil_append, parseAci,
        parseOptClause_skip_ta_t, parseOptClause_match _ _ htq,
        parseOptClause_match _ _ hfq,
        parseBody_correct hn hpj hk ho he, hsplit]
  · have hl := hta l rfl
    have hjq : '"' ∉ joinChar '|' l :=
      not_mem_joinChar (by decide) (fun x m => (hl.2 x m).2)
    have hlsplit : splitChar '|' (joinChar '|' l) = l :=
      splitChar_joinChar hl.1 (fun x m => (hl.2 x m).1)
    rcases ot with _ | t <;> rcases otf with _ | f
    · simp only [serializeAci, optClause, Option.map_none', Option.map_some',
        bindrulePart, List.append_assoc, List.cons_append, List.nil_append, parseAci,
        parseOptClause_match _ _ hjq, parseOptClause_skip_t_v, parseOptClause_skip_tf_v,
        parseBody_correct hn hpj hk ho he, hsplit, hlsplit]
    · have hfq : '"' ∉ f := htf f rfl
      simp only [serializeAci, optClause, Option.map_none', Option.map_some',
        bindrulePart, List.append_assoc, List.cons_append, List.nil_append, parseAci,
        parseOptClause_match _ _ hjq, parseOptClause_skip_t_tf,
        parseOptClause_match _ _ hfq,
        parseBody_correct hn hpj hk ho he, hsplit, hlsplit]
    · have htq : '"' ∉ t := ht t rfl
      simp only [serializeAci, optClause, Option.map_none', Option.map_some',
        bindrulePart, List.append_assoc, List.cons_append, List.nil_append, parseAci,
        parseOptClause_match _ _ hjq, parseOptClause_match _ _ htq,
        parseOptClause_skip_tf_v,
        parseBody_correct hn hpj hk ho he, hsplit, hlsplit]
    · have htq : '"' ∉ t := ht t rfl
      have hfq : '"' ∉ f := htf f rfl
      simp only [serializeAci, optClause, Option.map_none', Option.map_some',
        bindrulePart, List.append_assoc, List.cons_append, List.nil_append, parseAci,
        parseOptClause_match _ _ hjq, parseOptClause_match _ _ htq,
        parseOptClause_match _ _ hfq,
        parseBody_correct hn hpj hk ho he, hsplit, hlsplit]

theorem isequal_refl (a : ACI) : isequal a a = true := by
  simp [isequal, List.all_eq_true]

/-- Claim C2: for every valid constructed ACI `a`, parsing the
serialization of `a` yields an ACI structurally equal to `a` — in fact it
yields `a` itself, and `a` is structurally equal to itself under the
model's structural-equality test. -/
theorem c2_parse_serialize_roundtrip (a : ACI) (h : a.wf) :
    parseAci (serializeAci a) = some a ∧ isequal a a = true :=
  ⟨parseAci_serializeAci h, isequal_refl a⟩

/-- Witness for C2 at a concrete well-formed ACI. -/
theorem c2_parse_serialize_roundtrip_witness :
    sampleAci.wf ∧ parseAci (serializeAci sampleAci) = some sampleAci ∧
      isequal sampleAci sampleAci = true :=
  ⟨by decide, (c2_parse_serialize_roundtrip sampleAci (by decide)).1,
   (c2_parse_serialize_roundtrip sampleAci (by decide)).2⟩

/-! ## Permission normalization -/

theorem normPermsLoop_cons (acc : List Str) (p : Str) (ps : List Str) :
    normPermsLoop acc (p :: ps) =
      if (validPermissionsValues.contains (strLower (pyStrip p)) &&
          !(acc.contains (strLower (pyStrip p)))) = true then
        normPermsLoop (acc ++ [strLower (pyStrip p)]) ps
      else normPermsLoop acc ps := rfl

theorem normPermsLoop_sub (ps : List Str) (acc : List Str)
    (h : ∀ q ∈ acc, q ∈ validPermissionsValues) :
    ∀ q ∈ normPermsLoop acc ps, q ∈ validPermissionsValues := by
  induction ps generalizing acc with
  | nil => simpa [normPermsLoop] using h
  | cons p rest ih =>
    rw [normPermsLoop_cons]
    by_cases hc : (validPermissionsValues.contains (strLower (pyStrip p)) &&
        !(acc.contains (strLower (pyStrip p)))) = true
    · have hmem : strLower (pyStrip p) ∈ validPermissionsValues :=
        List.mem_of_elem_eq_true ((Bool.and_eq_true _ _).mp hc).1
      rw [if_pos hc]
      refine ih (acc ++ [strLower (pyStrip p)]) ?_
      intro q hq
      rcases List.mem_append.mp hq with h1 | h2
      · exact h q h1
      · have : q = strLower (pyStrip p) := List.mem_singleton.mp h2
        rw [this]
        exact hmem
    · rw [if_neg hc]
      exact ih acc h

theorem normPermsLoop_nodup (ps : List Str) (acc : List Str) (h : acc.Nodup) :
    (normPermsLoop acc ps).Nodup := by
  induction ps generalizing acc with
  | nil => simpa [normPermsLoop] using h
  | cons p rest ih =>
    rw [normPermsLoop_cons]
    by_cases hc : (validPermissionsValues.contains (strLower (pyStrip p)) &&
        !(acc.contains (strLower (pyStrip p)))) = true
    · have hnotmem : strLower (pyStrip p) ∉ acc := by
        have h2 := ((Bool.and_eq_true _ _).mp hc).2
        intro hm
        have h3 : acc.contains (strLower (pyStrip p)) = true :=
          List.elem_eq_true_of_mem hm
        rw [h3] at h2
        simp at h2
      rw [if_pos hc]
      refine ih (acc ++ [strLower (pyStrip p)]) ?_
      rw [List.nodup_append]
      refine ⟨h, List.nodup_singleton _, ?_⟩
      intro q hq hq2
      exact hnotmem ((List.mem_singleton.mp hq2) ▸ hq)
    · rw [if_neg hc]
      exact ih acc h

theorem vocab_fixed : ∀ q ∈ validPermissionsValues, strLower (pyStrip q) = q := by
  decide

theorem vocab_no_comma : ∀ q ∈ validPermissionsValues, ',' ∉ q := by
  decide

theorem normPermsLoop_fixed (l : List Str) :
    ∀ acc, (∀ q ∈ l, q ∈ validPermissionsValues) → (acc ++ l).Nodup →
      normPermsLoop acc l = acc ++ l := by
  induction l with
  | nil => intro acc _ _; simp [normPermsLoop]
  | cons q rest ih =>
    intro acc hv hn
    have hq : q ∈ validPermissionsValues := hv q (List.mem_cons_self q rest)
    have hfix : strLower (pyStrip q) = q := vocab_fixed q hq
    have hnotacc : q ∉ acc := by
      intro hm
      exact (List.nodup_append.mp hn).2.2 hm (List.mem_cons_self q rest)
    have hc : (validPermissionsValues.contains (strLower (pyStrip q)) &&
        !(acc.contains (strLower (pyStrip q)))) = true := by
      rw [hfix]
      have h1 : validPermissionsValues.contains q = true :=
        List.elem_eq_true_of_mem hq
      have h2 : acc.contains q = false := by
        cases hx : acc.contains q
        · rfl
        · exact absurd (List.mem_of_elem_eq_true hx) hnotacc
      rw [h1, h2]
      rfl
    rw [normPermsLoop_cons, if_pos hc, hfix]
    have hrest : normPermsLoop (acc ++ [q]) rest = (acc ++ [q]) ++ rest := by
      refine ih (acc ++ [q]) (fun p hp => hv p (List.mem_cons_of_mem q hp)) ?_
      simpa [List.append_assoc] using hn
    rw [hrest]
    simp

/-- Claim C6: permission normalization is idempotent, and normalizing
`read, READ ,write` yields `read,write` (trim, lowercase, drop unknown
tokens, deduplicate keeping first-occurrence order). -/
theorem c6_normalize_permissions :
    (∀ s : Str, normalizePermissions (normalizePermissions s) =
      normalizePermissions s) ∧
    normalizePermissions (str "read, READ ,write") = str "read,write" := by
  constructor
  · intro s
    have hsub : ∀ q ∈ normPermsLoop [] (splitChar ',' s),
        q ∈ validPermissionsValues := normPermsLoop_sub _ _ (by simp)
    have hnodup : (normPermsLoop [] (splitChar ',' s)).Nodup :=
      normPermsLoop_nodup _ _ List.nodup_nil
    show joinChar ','
        (normPermsLoop [] (splitChar ',' (joinChar ','
          (normPermsLoop [] (splitChar ',' s))))) =
      joinChar ',' (normPermsLoop [] (splitChar ',' s))
    generalize hL : normPermsLoop [] (splitChar ',' s) = L at hsub hnodup
    cases L with
    | nil => decide
    | cons q qs =>
      have hjs : splitChar ',' (joinChar ',' (q :: qs)) = q :: qs :=
        splitChar_joinChar (List.cons_ne_nil q qs)
          (fun p hp => vocab_no_comma p (hsub p hp))
      rw [hjs, normPermsLoop_fixed _ _ hsub (by simpa using hnodup)]
      simp
  · decide

/-! ## Decoding, lookup and removal -/

theorem dictGetD_entryAttrs (store : List Str) :
    dictGetD (entryAttrs store) (str "aci") [] = store := rfl

theorem convertStringsToAcis_append (l1 l2 : List Str) :
    convertStringsToAcis (l1 ++ l2) =
      convertStringsToAcis l1 ++ convertStringsToAcis l2 := by
  induction l1 with
  | nil => rfl
  | cons s rest ih =>
    cases hp : parseAci s with
    | none => simp [convertStringsToAcis, hp, ih]
    | some a => simp [convertStringsToAcis, hp, ih]

theorem convertStringsToAcis_malformed {m : Str} (h : parseAci m = none)
    (l1 l2 : List Str) :
    convertStringsToAcis (l1 ++ m :: l2) = convertStringsToAcis (l1 ++ l2) := by
  rw [convertStringsToAcis_append, convertStringsToAcis_append]
  have : convertStringsToAcis (m :: l2) = convertStringsToAcis l2 := by
    simp [convertStringsToAcis, h]
  rw [this]

theorem convert_parse {strs : List Str} {a : ACI}
    (h : a ∈ convertStringsToAcis strs) : ∃ x ∈ strs, parseAci x = some a := by
  induction strs with
  | nil => simp [convertStringsToAcis] at h
  | cons s rest ih =>
    cases hp : parseAci s with
    | none =>
      rw [convertStringsToAcis, hp] at h
      obtain ⟨x, hx, he⟩ := ih h
      exact ⟨x, List.mem_cons_of_mem s hx, he⟩
    | some b =>
      rw [convertStringsToAcis, hp] at h
      rcases List.mem_cons.mp h with rfl | hm
      · exact ⟨s, List.mem_cons_self s rest, hp⟩
      · obtain ⟨x, hx, he⟩ := ih hm
        exact ⟨x, List.mem_cons_of_mem s hx, he⟩

theorem findAciByName_mem {l : List ACI} {n : Str} {a : ACI}
    (h : findAciByName l n = .ok a) : a ∈ l := by
  induction l with
  | nil => simp [findAciByName] at h
  | cons b rest ih =>
    by_cases hb : strLower b.name = strLower n
    · rw [findAciByName, if_pos hb] at h
      cases h
      exact List.mem_cons_self _ _
    · rw [findAciByName, if_neg hb] at h
      exact List.mem_cons_of_mem b (ih h)

theorem findAciByName_notFound {l : List ACI} {n : Str}
    (h : ∀ a ∈ l, strLower a.name ≠ strLower n) :
    findAciByName l n = .error (.notFound n) := by
  induction l with
  | nil => rfl
  | cons b rest ih =>
    rw [findAciByName, if_neg (h b (List.mem_cons_self b rest))]
    exact ih (fun a ha => h a (List.mem_cons_of_mem b ha))

theorem findAciByName_found {l : List ACI} {n : Str} {a : ACI}
    (h : findAciByName l n = .ok a) : strLower a.name = strLower n := by
  induction l with
  | nil => simp [findAciByName] at h
  | cons b rest ih =>
    by_cases hb : strLower b.name = strLower n
    · rw [findAciByName, if_pos hb] at h
      cases h
      exact hb
    · rw [findAciByName, if_neg hb] at h
      exact ih h

theorem isequalStr_of_parse {a : ACI} {x : Str} (h : parseAci x = some a) :
    isequalStr a x = true := by
  rw [isequalStr, h]
  exact isequal_refl a

theorem removeFirstEqual_split {aci : ACI} {strs : List Str}
    (h : ∃ x ∈ strs, isequalStr aci x = true) :
    ∃ l1 x l2, strs = l1 ++ x :: l2 ∧ isequalStr aci x = true ∧
      (∀ y ∈ l1, isequalStr aci y = false) ∧
      removeFirstEqual aci strs = l1 ++ l2 := by
  induction strs with
  | nil => simp at h
  | cons s rest ih =>
    by_cases hs : isequalStr aci s = true
    · exact ⟨[], s, rest, rfl, hs, by simp, by simp [removeFirstEqual, hs]⟩
    · have h2 : ∃ x ∈ rest, isequalStr aci x = true := by
        obtain ⟨x, hx, he⟩ := h
        rcases List.mem_cons.mp hx with rfl | hm
        · exact absurd he hs
        · exact ⟨x, hm, he⟩
      obtain ⟨l1, x, l2, e, hx, hl, hr⟩ := ih h2
      refine ⟨s :: l1, x, l2, by rw [e, List.cons_append], hx, ?_, ?_⟩
      · intro y hy
        rcases List.mem_cons.mp hy with rfl | hm
        · exact Bool.not_eq_true _ ▸ Bool.of_not_eq_true hs
        · exact hl y hm
      · rw [removeFirstEqual, if_neg hs, hr, List.cons_append]

/-- Claim C3: delete fails with NotFound when no stored ACI has the given
name under case-insensitive comparison; otherwise it removes exactly the
first raw stored entry structurally equal to the located ACI, leaves every
other entry untouched, and returns True. -/
theorem c3_delete_behaviour (strs : List Str) (n : Str) :
    ((∀ a ∈ convertStringsToAcis strs, strLower a.name ≠ strLower n) →
      aci2_delete strs n = (strs, .error (.notFound n))) ∧
    (∀ aci, findAciByName (convertStringsToAcis strs) n = .ok aci →
      aci2_delete strs n = (removeFirstEqual aci strs, .ok true) ∧
      ∃ l1 x l2, strs = l1 ++ x :: l2 ∧ isequalStr aci x = true ∧
        (∀ y ∈ l1, isequalStr aci y = false) ∧
        removeFirstEqual aci strs = l1 ++ l2) := by
  constructor
  · intro h
    rw [aci2_delete]
    rw [dictGetD_entryAttrs, findAciByName_notFound h]
  · intro aci hfind
    constructor
    · rw [aci2_delete, dictGetD_entryAttrs, hfind]
    · have hmem : aci ∈ convertStringsToAcis strs := findAciByName_mem hfind
      obtain ⟨x, hx, he⟩ := convert_parse hmem
      obtain ⟨l1, x2, l2, e, hx2, hl, hr⟩ :=
        removeFirstEqual_split ⟨x, hx, isequalStr_of_parse he⟩
      exact ⟨l1, x2, l2, e, hx2, hl, hr⟩

/-- Witness for C3: deleting a missing name fails with NotFound and the
store is unchanged; deleting `TEST` (case-insensitively matching the
stored `test`) removes exactly that entry and returns True. -/
theorem c3_delete_behaviour_witness :
    aci2_delete [serializeAci sampleAci] (str "zz") =
      ([serializeAci sampleAci], .error (.notFound (str "zz"))) ∧
    aci2_delete [serializeAci sampleAci] (str "TEST") = ([], .ok true) :=
  ⟨(c3_delete_behaviour [serializeAci sampleAci] (str "zz")).1 (by decide),
   (((c3_delete_behaviour [serializeAci sampleAci] (str "TEST")).2 sampleAci
      (by decide)).1).trans (by decide)⟩

/-! ## The find pipeline -/

theorem enum_nodup (l : List ACI) : l.enum.Nodup := by
  have h : (l.enum.map Prod.fst).Nodup := by
    rw [List.enum_map_fst]
    exact List.nodup_range _
  exact h.of_map

theorem removeFirstP_append {x : IAci} {pre : List IAci} (post : List IAci)
    (h : x ∉ pre) : removeFirstP x (pre ++ x :: post) = pre ++ post := by
  induction pre with
  | nil => simp [removeFirstP]
  | cons y ys ih =>
    have hyx : y ≠ x := by
      intro e
      exact h (e ▸ List.mem_cons_self y ys)
    have h2 : x ∉ ys := fun m => h (List.mem_cons_of_mem y m)
    simp only [List.cons_append, removeFirstP, if_neg hyx, List.append_eq]
    rw [ih h2]

theorem filterPass_eq_filter (keep : IAci → Bool) (snapshot : List IAci) :
    ∀ pre, (pre ++ snapshot).Nodup →
      filterPass keep (pre ++ snapshot) snapshot = pre ++ snapshot.filter keep := by
  induction snapshot with
  | nil => intro pre _; simp [filterPass]
  | cons a rest ih =>
    intro pre hn
    rw [filterPass]
    by_cases ha : keep a = true
    · rw [if_pos ha]
      have e1 : pre ++ a :: rest = (pre ++ [a]) ++ rest := by simp
      rw [e1, ih (pre ++ [a]) (by simpa using hn)]
      simp [List.filter_cons, ha]
    · rw [if_neg ha]
      have hxp : a ∉ pre := by
        intro hm
        exact (List.nodup_append.mp hn).2.2 hm (List.mem_cons_self a rest)
      rw [removeFirstP_append rest hxp]
      have hsub : (pre ++ rest).Nodup := by
        refine List.Nodup.sublist ?_ hn
        exact List.Sublist.append_left (List.sublist_cons_self a rest) pre
      rw [ih pre hsub]
      have : keep a = false := Bool.not_eq_true _ ▸ Bool.of_not_eq_true ha
      simp [List.filter_cons, this]

theorem filterPass_self_eq_filter (keep : IAci → Bool) {l : List IAci}
    (h : l.Nodup) : filterPass keep l l = l.filter keep := by
  have := filterPass_eq_filter keep l [] (by simpa using h)
  simpa using this

theorem findAciByName_exists {l : List ACI} {n : Str}
    (h : ∃ a ∈ l, strLower a.name = strLower n) :
    ∃ a, findAciByName l n = .ok a := by
  induction l with
  | nil => simp at h
  | cons b rest ih =>
    by_cases hb : strLower b.name = strLower n
    · exact ⟨b, by rw [findAciByName, if_pos hb]⟩
    · obtain ⟨a, ha, he⟩ := h
      rcases List.mem_cons.mp ha with rfl | hm
      · exact absurd he hb
      · obtain ⟨c, hc⟩ := ih ⟨a, hm, he⟩
        exact ⟨c, by rw [findAciByName, if_neg hb]; exact hc⟩

/-- Claim C10: find's `aciname` criterion compares names case-sensitively
(`a.name != kw[aciname]`), while show locates the ACI case-insensitively:
when every stored ACI's name differs from the query as a string but some
stored ACI matches it up to letter case, find with that `aciname` returns
no match and show with the same name succeeds. -/
theorem c10_find_aciname_case_sensitive (env : Env) (strs : List Str) (q : Str)
    (h1 : ∀ b ∈ convertStringsToAcis strs, b.name ≠ q)
    (h2 : ∃ b ∈ convertStringsToAcis strs, strLower b.name = strLower q) :
    aci2_find env strs [] { aciname := some q } = .ok [] ∧
    (aci2_show strs q).isOk = true := by
  constructor
  · rw [aci2_find]
    simp only [dictGetD_entryAttrs, List.isEmpty_nil, if_true]
    have hflt : filterPass (fun ia => decide (ia.2.name = q))
        (convertStringsToAcis strs).enum (convertStringsToAcis strs).enum =
        ((convertStringsToAcis strs).enum).filter (fun ia => decide (ia.2.name = q)) :=
      filterPass_self_eq_filter _ (enum_nodup _)
    have hnil : ((convertStringsToAcis strs).enum).filter
        (fun ia => decide (ia.2.name = q)) = [] := by
      rw [List.filter_eq_nil_iff]
      intro ia hia
      simp only [decide_eq_true_eq]
      exact h1 ia.2 (List.snd_mem_of_mem_enum hia)
    simp [hflt, hnil]
  · obtain ⟨a, ha⟩ := findAciByName_exists h2
    rw [aci2_show]
    simp only [dictGetD_entryAttrs, ha]
    rfl

/-- Witness for C10: the stored ACI is named `test`; find with aciname
`TEST` returns nothing while show with `TEST` succeeds. -/
theorem c10_find_aciname_case_sensitive_witness :
    aci2_find sampleEnv [serializeAci sampleAci] [] { aciname := some (str "TEST") } =
      .ok [] ∧
    (aci2_show [serializeAci sampleAci] (str "TEST")).isOk = true :=
  c10_find_aciname_case_sensitive sampleEnv [serializeAci sampleAci] (str "TEST")
    (by decide) (by decide)

theorem enumFrom_filter_snd_map {α β : Type} (p : α → Bool) (f : α → β)
    (l : List α) : ∀ n,
      (((List.enumFrom n l).filter (fun ia => p ia.2)).map (fun ia => f ia.2)) =
        (l.filter p).map f := by
  induction l with
  | nil => intro n; rfl
  | cons a rest ih =>
    intro n
    by_cases hp : p a = true
    · simp only [List.enumFrom, List.filter_cons, hp, if_true, List.map_cons, ih]
    · have hf : p a = false := Bool.not_eq_true _ ▸ Bool.of_not_eq_true hp
      simp only [List.enumFrom, List.filter_cons, hf, Bool.false_eq_true, if_false,
        ih]

theorem enum_filter_snd_map {α β : Type} (p : α → Bool) (f : α → β) (l : List α) :
    ((l.enum.filter (fun ia => p ia.2)).map (fun ia => f ia.2)) = (l.filter p).map f :=
  enumFrom_filter_snd_map p f l 0

theorem enumFrom_snd_map {α β : Type} (f : α → β) (l : List α) :
    ∀ n, ((List.enumFrom n l).map (fun ia => f ia.2)) = l.map f := by
  induction l with
  | nil => intro n; rfl
  | cons a rest ih => intro n; simp only [List.enumFrom, List.map_cons, ih]

theorem enum_snd_map {α β : Type} (f : α → β) (l : List α) :
    (l.enum.map (fun ia => f ia.2)) = l.map f :=
  enumFrom_snd_map f l 0

theorem filterPassE_pure (keep : IAci → Except Err Bool) (p : IAci → Bool)
    (snapshot : List IAci) (h : ∀ x ∈ snapshot, keep x = .ok (p x)) :
    ∀ res, filterPassE keep res snapshot = .ok (filterPass p res snapshot) := by
  induction snapshot with
  | nil => intro res; rfl
  | cons a rest ih =>
    intro res
    have ha : keep a = .ok (p a) := h a (List.mem_cons_self a rest)
    have hrest : ∀ x ∈ rest, keep x = .ok (p x) :=
      fun x hx => h x (List.mem_cons_of_mem a hx)
    rw [filterPassE, ha, filterPass]
    cases hp : p a
    · show filterPassE keep (removeFirstP a res) rest =
        .ok (filterPass p (removeFirstP a res) rest)
      exact ih hrest _
    · show filterPassE keep res rest = .ok (filterPass p res rest)
      exact ih hrest res

/-- Claim C7: with the `permissions` criterion supplied, find keeps
exactly the ACIs whose permission list equals the supplied one under
sorted comparison; concretely, `[write, read]` matches a stored
`[read, write]` and does not match a stored `[read, write, add]`. -/
theorem c7_find_permissions (env : Env) (strs : List Str) (p : List Str) :
    aci2_find env strs [] { permissions := some p } =
      .ok (((convertStringsToAcis strs).filter
        (fun a => decide (sortStr a.permissions = sortStr p))).map serializeAci) ∧
    aci2_find sampleEnv [serializeAci sampleAci, serializeAci sampleAci3] []
      { permissions := some [str "write", str "read"] } =
      .ok [serializeAci sampleAci] := by
  constructor
  · rw [aci2_find]
    simp only [dictGetD_entryAttrs, List.isEmpty_nil, if_true]
    rw [filterPass_self_eq_filter _ (enum_nodup _)]
    exact congrArg Except.ok
      (enum_filter_snd_map (fun a => decide (sortStr a.permissions = sortStr p))
        serializeAci (convertStringsToAcis strs))
  · decide

theorem parseAci_bindrule {s : Str} {a : ACI} (h : parseAci s = some a) :
    ∃ br, a.bindrule = some br := by
  rw [parseAci] at h
  split at h
  · exact absurd h (by simp)
  split at h
  · exact absurd h (by simp)
  split at h
  · exact absurd h (by simp)
  split at h
  · exact absurd h (by simp)
  cases h
  exact ⟨_, rfl⟩

/-- Claim C8: an unresolvable `taskgroup` or `memberof` criterion makes
that find pass a no-op (no error, nothing filtered); a resolvable
`taskgroup` keeps exactly the ACIs whose bind-rule expression is
`ldap:///<DN>`, and a resolvable `memberof` keeps exactly the ACIs whose
target filter is present and equal to `(memberOf=<DN>)`. -/
theorem c8_find_group_filters (env : Env) (strs : List Str) (tg g : Str) :
    (taskgroup2_show env tg = none →
      aci2_find env strs [] { taskgroup := some tg } =
        .ok ((convertStringsToAcis strs).map serializeAci)) ∧
    (group2_show env g = none →
      aci2_find env strs [] { memberof := some g } =
        .ok ((convertStringsToAcis strs).map serializeAci)) ∧
    (∀ dn, taskgroup2_show env tg = some dn →
      aci2_find env strs [] { taskgroup := some tg } =
        .ok (((convertStringsToAcis strs).filter (fun a =>
          match a.bindrule with
          | some br => decide (br.expression = str "ldap:///" ++ dn)
          | none => false)).map serializeAci)) ∧
    (∀ dn, group2_show env g = some dn →
      aci2_find env strs [] { memberof := some g } =
        .ok (((convertStringsToAcis strs).filter (fun a =>
          match a.target.targetfilter with
          | some f => decide (f = '(' :: str "memberOf=" ++ dn ++ ')' :: [])
          | none => false)).map serializeAci)) := by
  refine ⟨?_, ?_, ?_, ?_⟩
  · intro h
    rw [aci2_find]
    simp only [dictGetD_entryAttrs, List.isEmpty_nil, if_true, h]
    exact congrArg Except.ok (enum_snd_map serializeAci _)
  · intro h
    rw [aci2_find]
    simp only [dictGetD_entryAttrs, List.isEmpty_nil, if_true, h]
    exact congrArg Except.ok (enum_snd_map serializeAci _)
  · intro dn h
    rw [aci2_find]
    simp only [dictGetD_entryAttrs, List.isEmpty_nil, if_true, h]
    have hkeep : ∀ x ∈ (convertStringsToAcis strs).enum,
        (match x.2.bindrule with
          | none => Except.error (Err.keyError (str "expression"))
          | some br => Except.ok (decide (br.expression = str "ldap:///" ++ dn))) =
        Except.ok ((fun a => match a.bindrule with
          | some br => decide (br.expression = str "ldap:///" ++ dn)
          | none => false) x.2) := by
      intro x hx
      obtain ⟨s2, _, hp⟩ := convert_parse (List.snd_mem_of_mem_enum hx)
      obtain ⟨br, hbr⟩ := parseAci_bindrule hp
      simp only [hbr]
    rw [filterPassE_pure _ _ _ hkeep, filterPass_self_eq_filter _ (enum_nodup _)]
    exact congrArg Except.ok
      (enum_filter_snd_map (fun a =>
        match a.bindrule with
        | some br => decide (br.expression = str "ldap:///" ++ dn)
        | none => false) serializeAci (convertStringsToAcis strs))
  · intro dn h
    rw [aci2_find]
    simp only [dictGetD_entryAttrs, List.isEmpty_nil, if_true, h]
    rw [filterPass_self_eq_filter _ (enum_nodup _)]
    exact congrArg Except.ok
      (enum_filter_snd_map (fun a =>
        match a.target.targetfilter with
        | some f => decide (f = '(' :: str "memberOf=" ++ dn ++ ')' :: [])
        | none => false) serializeAci (convertStringsToAcis strs))

/-- Witness for C8 at concrete inputs: unresolvable names leave the
single stored ACI in the result with no error; the resolved task-group
DN matches the sample bind rule (ACI kept) while the resolved group's
`(memberOf=...)` filter does not match the sample target filter (ACI
dropped). -/
theorem c8_find_group_filters_witness :
    taskgroup2_show sampleEnv (str "zz") = none ∧
    aci2_find sampleEnv [serializeAci sampleAci] [] { taskgroup := some (str "zz") } =
      .ok [serializeAci sampleAci] ∧
    aci2_find sampleEnv [serializeAci sampleAci] [] { memberof := some (str "zz") } =
      .ok [serializeAci sampleAci] ∧
    aci2_find sampleEnv [serializeAci sampleAci] [] { taskgroup := some (str "tg1") } =
      .ok [serializeAci sampleAci] ∧
    aci2_find sampleEnv [serializeAci sampleAci] [] { memberof := some (str "g1") } =
      .ok [] :=
  ⟨by decide,
   ((c8_find_group_filters sampleEnv [serializeAci sampleAci] (str "zz")
      (str "zz")).1 (by decide)).trans (by decide),
   ((c8_find_group_filters sampleEnv [serializeAci sampleAci] (str "zz")
      (str "zz")).2.1 (by decide)).trans (by decide),
   ((c8_find_group_filters sampleEnv [serializeAci sampleAci] (str "tg1")
      (str "g1")).2.2.1 (taskgroupDn (str "tg1")) (by decide)).trans (by decide),
   ((c8_find_group_filters sampleEnv [serializeAci sampleAci] (str "tg1")
      (str "g1")).2.2.2 (str "cn=g1,cn=groups,cn=accounts,dc=example,dc=com")
      (by decide)).trans (by decide)⟩

/-! ## The builder -/

theorem splitFirst_self (c : Char) (rest : Str) :
    splitFirst c (c :: rest) = ([], rest) := by
  simp [splitFirst]

theorem set_bindrule_groupdn (a : ACI) {dn : Str} (h : '"' ∉ dn) :
    a.set_bindrule (str "groupdn = \"ldap:///" ++ dn ++ '"' :: []) =
      { a with bindrule := some ⟨str "groupdn", str "=", str "ldap:///" ++ dn⟩ } := by
  have hq : '"' ∉ str "ldap:///" ++ dn := by
    intro hm
    rcases List.mem_append.mp hm with h1 | h2
    · exact absurd h1 (by decide)
    · exact h h2
  have e : str "groupdn = \"ldap:///" ++ dn ++ '"' :: [] =
      str "groupdn" ++ ' ' ::
        (str "=" ++ ' ' :: ('"' :: ((str "ldap:///" ++ dn) ++ '"' :: []))) := rfl
  rw [ACI.set_bindrule, e]
  rw [splitFirst_append _ (show ' ' ∉ str "groupdn" by decide)]
  rw [splitFirst_append _ (show ' ' ∉ str "=" by decide)]
  rw [splitFirst_self]
  rw [splitFirst_append _ hq]

/-- Claim C5: when the grantee task-group lookup fails with NotFound, the
builder creates a task-group under the requested task-group name with the
ACI name as its description, and proceeds with the new group's DN in the
bind rule; a NotFound from resolving `memberof` or `targetgroup`
propagates to the caller and creates nothing. -/
theorem c5_make_aci_grantee (env : Env) (aciname tg g : Str)
    (perms : List Str) :
    (taskgroup2_show env tg = none → '"' ∉ tg →
      make_aci env none aciname { taskgroup := some tg, permissions := some perms } =
        ({ env with taskgroups := env.taskgroups ++ [⟨tg, taskgroupDn tg, aciname⟩] },
         .ok ⟨aciname, perms,
              some ⟨str "groupdn", str "=", str "ldap:///" ++ taskgroupDn tg⟩,
              ⟨none, none, none⟩⟩)) ∧
    (∀ dn, taskgroup2_show env tg = some dn → group2_show env g = none →
      make_aci env none aciname
        { taskgroup := some tg, permissions := some perms, memberof := some g } =
        (env, .error (.notFound g))) ∧
    (∀ dn, taskgroup2_show env tg = some dn → group2_show env g = none →
      make_aci env none aciname
        { taskgroup := some tg, permissions := some perms, targetgroup := some g } =
        (env, .error (.notFound g))) := by
  refine ⟨?_, ?_, ?_⟩
  · intro h htg
    rw [make_aci]
    simp only [h, taskgroup2_create]
    have hdn : '"' ∉ taskgroupDn tg := by
      intro hm
      rw [taskgroupDn] at hm
      rcases List.mem_append.mp hm with h1 | h2
      · rcases List.mem_append.mp h1 with h3 | h4
        · exact absurd h3 (by decide)
        · exact htg h4
      · exact absurd h2 (by decide)
    rw [set_bindrule_groupdn _ hdn]
    rfl
  · intro dn h hg
    rw [make_aci]
    simp only [h, hg]
  · intro dn h hg
    rw [make_aci]
    simp only [h, hg]

/-- Witness for C5: `tgnew` does not exist in the sample environment and
is auto-created with the ACI name as description; an unresolvable
`memberof` or `targetgroup` group `gnone` yields NotFound. -/
theorem c5_make_aci_grantee_witness :
    make_aci sampleEnv none (str "anaci")
      { taskgroup := some (str "tgnew"), permissions := some [str "read"] } =
      ({ sampleEnv with taskgroups := sampleEnv.taskgroups ++
          [⟨str "tgnew", taskgroupDn (str "tgnew"), str "anaci"⟩] },
       .ok ⟨str "anaci", [str "read"],
            some ⟨str "groupdn", str "=",
                  str "ldap:///" ++ taskgroupDn (str "tgnew")⟩,
            ⟨none, none, none⟩⟩) ∧
    make_aci sampleEnv none (str "anaci")
      { taskgroup := some (str "tg1"), permissions := some [str "read"],
        memberof := some (str "gnone") } =
      (sampleEnv, .error (.notFound (str "gnone"))) ∧
    make_aci sampleEnv none (str "anaci")
      { taskgroup := some (str "tg1"), permissions := some [str "read"],
        targetgroup := some (str "gnone") } =
      (sampleEnv, .error (.notFound (str "gnone"))) :=
  ⟨(c5_make_aci_grantee sampleEnv (str "anaci") (str "tgnew") (str "gnone")
      [str "read"]).1 (by decide) (by decide),
   (c5_make_aci_grantee sampleEnv (str "anaci") (str "tg1") (str "gnone")
      [str "read"]).2.1 (taskgroupDn (str "tg1")) (by decide) (by decide),
   (c5_make_aci_grantee sampleEnv (str "anaci") (str "tg1") (str "gnone")
      [str "read"]).2.2 (taskgroupDn (str "tg1")) (by decide) (by decide)⟩

/-! ## Modify -/

/-- Claim C4: for every modify request naming an existing ACI, each
unspecified request field is defaulted from that ACI's current value
(name; the grantee from the bind-rule expression as the taskgroup;
permissions; attrs from the target-attribute clause; subtree from the
existing target exactly when none of type/targetgroup/subtree is
supplied; filter from the existing target filter exactly when neither
memberof nor filter is supplied), while every supplied field is kept
unchanged; the operation then performs delete-by-name followed by create
with the merged keywords; the sequence is not atomic — the create step
fails and the returned store is the post-delete store, the original ACI
removed without replacement. -/
theorem c4_mod_defaults (env : Env) (strs : List Str) (n : Str) (aci : ACI)
    (br : BindRule) (ta : List Str) (t f : Str) (kw : AciKw)
    (hfind : findAciByName (convertStringsToAcis strs) n = .ok aci)
    (hbr : aci.bindrule = some br)
    (hta : aci.target.targetattr = some ta)
    (ht : aci.target.target = some t)
    (hf : aci.target.targetfilter = some f) :
    modMergeKw aci kw = .ok
      { aciname := some (kw.aciname.getD aci.name),
        taskgroup := some (kw.taskgroup.getD br.expression),
        permissions := some (kw.permissions.getD aci.permissions),
        attrs := some (kw.attrs.getD ta),
        type := kw.type,
        memberof := kw.memberof,
        filter := if kw.memberof.isNone && kw.filter.isNone then some f
          else kw.filter,
        subtree := if kw.type.isNone && kw.targetgroup.isNone && kw.subtree.isNone
          then some t else kw.subtree,
        targetgroup := kw.targetgroup } ∧
    aci2_mod env strs n kw =
      aci2_create env (removeFirstEqual aci strs) n
        { aciname := some (kw.aciname.getD aci.name),
          taskgroup := some (kw.taskgroup.getD br.expression),
          permissions := some (kw.permissions.getD aci.permissions),
          attrs := some (kw.attrs.getD ta),
          type := kw.type,
          memberof := kw.memberof,
          filter := if kw.memberof.isNone && kw.filter.isNone then some f
            else kw.filter,
          subtree := if kw.type.isNone && kw.targetgroup.isNone && kw.subtree.isNone
            then some t else kw.subtree,
          targetgroup := kw.targetgroup } ∧
    aci2_mod env strs n kw =
      (env, removeFirstEqual aci strs, .error .assertionError) := by
  have hmerge : modMergeKw aci kw = .ok
      { aciname := some (kw.aciname.getD aci.name),
        taskgroup := some (kw.taskgroup.getD br.expression),
        permissions := some (kw.permissions.getD aci.permissions),
        attrs := some (kw.attrs.getD ta),
        type := kw.type,
        memberof := kw.memberof,
        filter := if kw.memberof.isNone && kw.filter.isNone then some f
          else kw.filter,
        subtree := if kw.type.isNone && kw.targetgroup.isNone && kw.subtree.isNone
          then some t else kw.subtree,
        targetgroup := kw.targetgroup } := by
    obtain ⟨oa, otg, op, oat, oty, omo, ofi, osu, og⟩ := kw
    simp only [modMergeKw, hbr, hta, ht, hf]
    cases oa <;> cases otg <;> cases op <;> cases oat <;> cases oty <;>
      cases omo <;> cases ofi <;> cases osu <;> cases og <;> rfl
  have hdel : aci2_delete strs n = (removeFirstEqual aci strs, .ok true) := by
    rw [aci2_delete, dictGetD_entryAttrs, hfind]
  have hmod : aci2_mod env strs n kw =
      aci2_create env (removeFirstEqual aci strs) n
        { aciname := some (kw.aciname.getD aci.name),
          taskgroup := some (kw.taskgroup.getD br.expression),
          permissions := some (kw.permissions.getD aci.permissions),
          attrs := some (kw.attrs.getD ta),
          type := kw.type,
          memberof := kw.memberof,
          filter := if kw.memberof.isNone && kw.filter.isNone then some f
            else kw.filter,
          subtree := if kw.type.isNone && kw.targetgroup.isNone && kw.subtree.isNone
            then some t else kw.subtree,
          targetgroup := kw.targetgroup } := by
    simp only [aci2_mod, dictGetD_entryAttrs, hfind, hmerge, hdel]
  have hassert : aci2_create env (removeFirstEqual aci strs) n
      { aciname := some (kw.aciname.getD aci.name),
        taskgroup := some (kw.taskgroup.getD br.expression),
        permissions := some (kw.permissions.getD aci.permissions),
        attrs := some (kw.attrs.getD ta),
        type := kw.type,
        memberof := kw.memberof,
        filter := if kw.memberof.isNone && kw.filter.isNone then some f
          else kw.filter,
        subtree := if kw.type.isNone && kw.targetgroup.isNone && kw.subtree.isNone
          then some t else kw.subtree,
        targetgroup := kw.targetgroup } =
      (env, removeFirstEqual aci strs, .error .assertionError) := rfl
  exact ⟨hmerge, hmod, hmod.trans hassert⟩

/-- Witness for C4.  First conjunct: with every field unspecified,
modifying the single stored ACI (located case-insensitively) deletes it
and the create step then fails, leaving the store empty.  Second
conjunct: with `permissions` and `type` supplied, the supplied fields
are preserved, the remaining fields default from the ACI, and the
subtree default is skipped because `type` is given while the filter
default still fires. -/
theorem c4_mod_defaults_witness :
    aci2_mod sampleEnv [serializeAci sampleAci] (str "TEST") {} =
      (sampleEnv, [], .error .assertionError) ∧
    modMergeKw sampleAci
      { permissions := some [str "all"], type := some (str "user") } =
      .ok { aciname := some (str "test"),
            taskgroup := some
              (str "ldap:///cn=tg1,cn=taskgroups,cn=accounts,dc=example,dc=com"),
            permissions := some [str "all"], attrs := some [str "cn", str "sn"],
            type := some (str "user"),
            filter := some (str "memberOf=cn=g1") } :=
  ⟨((c4_mod_defaults sampleEnv [serializeAci sampleAci] (str "TEST") sampleAci
      sampleBr [str "cn", str "sn"] (str "ldap:///dc=example,dc=com")
      (str "memberOf=cn=g1") {} (by decide) (by decide) (by decide) (by decide)
      (by decide)).2.2).trans (by decide),
   ((c4_mod_defaults sampleEnv [serializeAci sampleAci] (str "TEST") sampleAci
      sampleBr [str "cn", str "sn"] (str "ldap:///dc=example,dc=com")
      (str "memberOf=cn=g1")
      { permissions := some [str "all"], type := some (str "user") }
      (by decide) (by decide) (by decide) (by decide)
      (by decide)).1).trans (by decide)⟩

/-! ## Create -/

/-- Claim C1: the duplicate half of the claim holds — creating a
structurally duplicate ACI fails with DuplicateEntry and the store is
unchanged (here the input differs from the stored ACI in name case and
permission order).  The non-duplicate half fails on the code: the source
appends the serialized candidate to `entry_attrs[acis]` (a key the entry
read with attribute list `[aci]` does not have), so a non-duplicate
create raises KeyError, writes nothing and returns nothing, instead of
appending to the `aci` attribute and returning the serialized text. -/
theorem c1_create_divergence :
    aci2_create sampleEnv [serializeAci sampleAci] (str "TEST")
      { taskgroup := some (str "tg1"), permissions := some [str "write", str "read"],
        attrs := some [str "cn", str "sn"], filter := some (str "memberOf=cn=g1"),
        subtree := some (str "ldap:///dc=example,dc=com") } =
      (sampleEnv, [serializeAci sampleAci], .error .duplicateEntry) ∧
    aci2_create sampleEnv [] (str "newaci")
      { taskgroup := some (str "tg1"), permissions := some [str "read"] } =
      (sampleEnv, [], .error (.keyError (str "acis"))) := by
  decide

/-! ## Malformed stored entries -/

theorem isequalStr_malformed {m : Str} (hm : parseAci m = none) (aci : ACI) :
    isequalStr aci m = false := by
  rw [isequalStr, hm]

theorem removeFirstEqual_append (aci : ACI) (l1 l2 : List Str) :
    removeFirstEqual aci (l1 ++ l2) =
      if l1.any (isequalStr aci) = true then removeFirstEqual aci l1 ++ l2
      else l1 ++ removeFirstEqual aci l2 := by
  induction l1 with
  | nil => simp [removeFirstEqual]
  | cons s rest ih =>
    have hstep : ∀ tail : List Str, removeFirstEqual aci (s :: tail) =
        if isequalStr aci s = true then tail
        else s :: removeFirstEqual aci tail := by
      intro tail
      simp only [removeFirstEqual]
    cases hs : isequalStr aci s
    · have hany : (s :: rest).any (isequalStr aci) = rest.any (isequalStr aci) := by
        rw [List.any_cons, hs, Bool.false_or]
      rw [List.cons_append, hstep, if_neg (by simp [hs]), ih, hany]
      by_cases hr : rest.any (isequalStr aci) = true
      · rw [if_pos hr, if_pos hr, hstep, if_neg (by simp [hs]), List.cons_append]
      · rw [if_neg hr, if_neg hr, List.cons_append]
    · have hany : (s :: rest).any (isequalStr aci) = true := by
        rw [List.any_cons, hs, Bool.true_or]
      rw [List.cons_append, hstep, if_pos hs, if_pos hany, hstep, if_pos hs]

theorem convert_removeFirstEqual_malformed {m : Str} (hm : parseAci m = none)
    (aci : ACI) (l1 l2 : List Str) :
    convertStringsToAcis (removeFirstEqual aci (l1 ++ m :: l2)) =
      convertStringsToAcis (removeFirstEqual aci (l1 ++ l2)) := by
  rw [removeFirstEqual_append, removeFirstEqual_append]
  by_cases h : l1.any (isequalStr aci) = true
  · rw [if_pos h, if_pos h]
    exact convertStringsToAcis_malformed hm _ _
  · rw [if_neg h, if_neg h]
    have hstep : removeFirstEqual aci (m :: l2) =
        if isequalStr aci m = true then l2 else m :: removeFirstEqual aci l2 := by
      simp only [removeFirstEqual]
    rw [hstep, if_neg (by simp [isequalStr_malformed hm])]
    exact convertStringsToAcis_malformed hm _ _

theorem aci2_create_congr (env : Env) {s1 s2 : List Str} (n : Str) (kw : AciKw)
    (h : convertStringsToAcis s1 = convertStringsToAcis s2) :
    (aci2_create env s1 n kw).1 = (aci2_create env s2 n kw).1 ∧
    (aci2_create env s1 n kw).2.2 = (aci2_create env s2 n kw).2.2 ∧
    (aci2_create env s1 n kw).2.1 = s1 ∧ (aci2_create env s2 n kw).2.1 = s2 := by
  rw [aci2_create, aci2_create]
  by_cases ha : kw.aciname.isSome = true
  · rw [if_pos ha, if_pos ha]
    exact ⟨rfl, rfl, rfl, rfl⟩
  · rw [if_neg ha, if_neg ha]
    cases hma : make_aci env none n kw with
    | mk env2 res =>
      cases res with
      | error e => exact ⟨rfl, rfl, rfl, rfl⟩
      | ok newaci =>
        simp only [dictGetD_entryAttrs, h]
        by_cases hd :
            (convertStringsToAcis s2).any (fun a => isequal a newaci) = true
        · rw [if_pos hd, if_pos hd]
          exact ⟨rfl, rfl, rfl, rfl⟩
        · rw [if_neg hd, if_neg hd]
          exact ⟨rfl, rfl, rfl, rfl⟩

/-- Claim C9: a stored string that fails to parse is silently dropped
from the decoded set by every operation that decodes the attribute: the
decoder skips it without surfacing an error, and inserting such a string
anywhere in the stored list changes neither find's nor show's outcome,
neither create's environment/result (its store is returned unwritten),
nor delete's result, nor modify's environment/result. -/
theorem c9_malformed_dropped {m : Str} (hm : parseAci m = none) :
    (∀ l1 l2 : List Str, convertStringsToAcis (l1 ++ m :: l2) =
      convertStringsToAcis (l1 ++ l2)) ∧
    (∀ env term kw, ∀ l1 l2 : List Str,
      aci2_find env (l1 ++ m :: l2) term kw = aci2_find env (l1 ++ l2) term kw) ∧
    (∀ n, ∀ l1 l2 : List Str,
      aci2_show (l1 ++ m :: l2) n = aci2_show (l1 ++ l2) n) ∧
    (∀ env n kw, ∀ l1 l2 : List Str,
      (aci2_create env (l1 ++ m :: l2) n kw).1 =
        (aci2_create env (l1 ++ l2) n kw).1 ∧
      (aci2_create env (l1 ++ m :: l2) n kw).2.2 =
        (aci2_create env (l1 ++ l2) n kw).2.2 ∧
      (aci2_create env (l1 ++ m :: l2) n kw).2.1 = l1 ++ m :: l2) ∧
    (∀ n, ∀ l1 l2 : List Str,
      (aci2_delete (l1 ++ m :: l2) n).2 = (aci2_delete (l1 ++ l2) n).2) ∧
    (∀ env n kw, ∀ l1 l2 : List Str,
      (aci2_mod env (l1 ++ m :: l2) n kw).1 = (aci2_mod env (l1 ++ l2) n kw).1 ∧
      (aci2_mod env (l1 ++ m :: l2) n kw).2.2 =
        (aci2_mod env (l1 ++ l2) n kw).2.2) := by
  refine ⟨convertStringsToAcis_malformed hm, ?_, ?_, ?_, ?_, ?_⟩
  · intro env term kw l1 l2
    rw [aci2_find, aci2_find, dictGetD_entryAttrs, dictGetD_entryAttrs,
      convertStringsToAcis_malformed hm]
  · intro n l1 l2
    rw [aci2_show, aci2_show, dictGetD_entryAttrs, dictGetD_entryAttrs,
      convertStringsToAcis_malformed hm]
  · intro env n kw l1 l2
    have hc := aci2_create_congr env n kw (convertStringsToAcis_malformed hm l1 l2)
    exact ⟨hc.1, hc.2.1, hc.2.2.1⟩
  · intro n l1 l2
    rw [aci2_delete, aci2_delete, dictGetD_entryAttrs, dictGetD_entryAttrs,
      convertStringsToAcis_malformed hm]
    cases hf : findAciByName (convertStringsToAcis (l1 ++ l2)) n with
    | error e => rfl
    | ok aci => rfl
  · intro env n kw l1 l2
    rw [aci2_mod, aci2_mod, dictGetD_entryAttrs, dictGetD_entryAttrs,
      convertStringsToAcis_malformed hm]
    cases hf : findAciByName (convertStringsToAcis (l1 ++ l2)) n with
    | error e => exact ⟨rfl, rfl⟩
    | ok aci =>
      dsimp only
      cases hmg : modMergeKw aci kw with
      | error e => exact ⟨rfl, rfl⟩
      | ok kw6 =>
        dsimp only
        have hdel1 : aci2_delete (l1 ++ m :: l2) n =
            (removeFirstEqual aci (l1 ++ m :: l2), .ok true) := by
          rw [aci2_delete, dictGetD_entryAttrs,
            convertStringsToAcis_malformed hm, hf]
        have hdel2 : aci2_delete (l1 ++ l2) n =
            (removeFirstEqual aci (l1 ++ l2), .ok true) := by
          rw [aci2_delete, dictGetD_entryAttrs, hf]
        rw [hdel1, hdel2]
        have hc := aci2_create_congr env n kw6
          (convert_removeFirstEqual_malformed hm aci l1 l2)
        exact ⟨hc.1, hc.2.1⟩

/-- Witness for C9: the unparseable entry `junk` is dropped from the
decoded set and does not perturb find, show or delete on a concrete
store. -/
theorem c9_malformed_dropped_witness :
    convertStringsToAcis ([serializeAci sampleAci] ++ str "junk" :: []) =
      convertStringsToAcis ([serializeAci sampleAci] ++ []) ∧
    aci2_find sampleEnv ([serializeAci sampleAci] ++ str "junk" :: []) [] {} =
      aci2_find sampleEnv ([serializeAci sampleAci] ++ []) [] {} ∧
    aci2_show ([serializeAci sampleAci] ++ str "junk" :: []) (str "test") =
      aci2_show ([serializeAci sampleAci] ++ []) (str "test") ∧
    (aci2_delete ([serializeAci sampleAci] ++ str "junk" :: []) (str "test")).2 =
      (aci2_delete ([serializeAci sampleAci] ++ []) (str "test")).2 :=
  ⟨(c9_malformed_dropped (by decide)).1 [serializeAci sampleAci] [],
   (c9_malformed_dropped (by decide)).2.1 sampleEnv [] {} [serializeAci sampleAci] [],
   (c9_malformed_dropped (by decide)).2.2.1 (str "test") [serializeAci sampleAci] [],
   (c9_malformed_dropped (by decide)).2.2.2.2.1 (str "test")
     [serializeAci sampleAci] []⟩

end Aci2
